import Mathlib

/-!
# Verification of the uWebKoa request-lifecycle core

Shallow embedding of `src/uWebKoa.js` (the later of the two concatenated
revisions in that file, the one the line references of the claims point to).

Conventions of the embedding:
* JavaScript strings are modelled as Lean `String`; the few string
  primitives the source uses (`split`, `startsWith`, `includes`, `trim`,
  `slice`, `replace`) are re-implemented below over `List Char` so that
  every definition evaluates inside the kernel.
* The uWebSockets.js response object is modelled as a trace of transport
  primitive calls (`writeStatus` / `writeHeader` / `write` / `end`)
  accumulated in the per-request context.
* External runtime functions the core merely calls (`JSON.parse`,
  `decodeURIComponent`) are oracle parameters; the core never inspects
  the structured value `JSON.parse` returns, so that value is abstract.
* Asynchronous interleaving (the request-timeout callback of
  `handleRequest`, the uWS abort event) is modelled by explicit schedule
  flags naming the `await` point at which the event fires.
-/

namespace UWebKoa

/-! ## JavaScript string primitives, re-implemented over `List Char` -/

/-- Character list of a string. -/
def chars (s : String) : List Char := s.data

/-- String from a character list. -/
def ofChars (l : List Char) : String := ⟨l⟩

/-- `l` begins with the run `p` (helper for `startsWith` / `includes`). -/
def hasLead : List Char → List Char → Bool
  | _, [] => true
  | [], _ :: _ => false
  | a :: as, b :: bs => a == b && hasLead as bs

/-- JS `s.startsWith(p)`. -/
def jsStarts (s p : String) : Bool := hasLead (chars s) (chars p)

/-- `p` occurs inside `l` (helper for `includes`). -/
def hasSub (p : List Char) : List Char → Bool
  | [] => hasLead [] p
  | c :: rest => hasLead (c :: rest) p || hasSub p rest

/-- JS `s.includes(p)`. -/
def strContains (s p : String) : Bool := hasSub (chars p) (chars s)

/-- JS `s.split(c)` for a one-character separator, over char lists. -/
def splitChar (c : Char) : List Char → List (List Char)
  | [] => [[]]
  | x :: xs =>
    if x == c then [] :: splitChar c xs
    else
      match splitChar c xs with
      | [] => [[x]]
      | h :: t => (x :: h) :: t

/-- JS `s.split(c)` returning strings. -/
def jsSplit (s : String) (c : Char) : List String :=
  (splitChar c (chars s)).map ofChars

/-- Join a list of strings with a one-character separator (inverse of split). -/
def joinWith (c : Char) : List String → String
  | [] => ""
  | [s] => s
  | s :: rest => s ++ ofChars [c] ++ joinWith c rest

/-- JS `s.slice(n)` / `s.substring(n)` (drop the first `n` code units). -/
def jsDrop (s : String) (n : Nat) : String := ofChars ((chars s).drop n)

/-- JS `s.length`. -/
def jsLen (s : String) : Nat := (chars s).length

/-- ASCII whitespace test for `trim`. -/
def isWS (c : Char) : Bool := c == ' ' || c == '\t' || c == '\n' || c == '\r'

/-- JS `s.trim()` (restricted to ASCII whitespace). -/
def jsTrim (s : String) : String :=
  ofChars ((((chars s).dropWhile isWS).reverse.dropWhile isWS).reverse)

/-- JS `s.endsWith(p)`. -/
def jsEnds (s p : String) : Bool := hasLead (chars s).reverse (chars p).reverse

/-- UTF-8 byte size of one character (models Node `Buffer` byte counting). -/
def charBytes (c : Char) : Nat :=
  if c.toNat < 0x80 then 1
  else if c.toNat < 0x800 then 2
  else if c.toNat < 0x10000 then 3
  else 4

/-- UTF-8 byte length of a string: the `length` of the Node `Buffer`
holding the string's bytes. -/
def jsByteLen (s : String) : Nat := ((chars s).map charBytes).sum

/-! ## Data model: response draft, transport trace, Context -/

/-- Abstract structured value produced by the external `JSON.parse`;
`uWebKoa` stores it in `request.body` without ever inspecting it, so the
embedding leaves it opaque up to an identity tag. -/
structure JsVal where
  tag : Nat
deriving DecidableEq, Repr

/-- The error-response object built by `ErrorHandler.handleError`
(`{success, message, code, error?}`); `error` is the optional stack. -/
structure ErrResponse where
  success : Bool
  message : String
  code : String
  error : Option String
deriving DecidableEq, Repr

/-- Values the code stores in `request.body` / `response.body`. -/
inductive BodyVal
  /-- JS `null` (the initial `response.body`). -/
  | null
  /-- The empty object `{}` parseBody assigns on bodiless/aborted requests. -/
  | emptyObj
  /-- A plain string body (raw text, HTML error pages, file contents). -/
  | raw (s : String)
  /-- A structured value returned by `JSON.parse`. -/
  | json (v : JsVal)
  /-- Form-decoded key/value pairs. -/
  | form (kvs : List (String × String))
  /-- A `{ error: s }` object (timeout responses). -/
  | errMsg (s : String)
  /-- The `ErrorHandler` response object. -/
  | errObj (e : ErrResponse)
deriving DecidableEq, Repr

/-- One call into the uWebSockets.js response object. -/
inductive TEvent
  /-- `res.writeStatus(s)`. -/
  | writeStatus (s : String)
  /-- `res.writeHeader(k, v)`. -/
  | writeHeader (k v : String)
  /-- `res.write(chunk)` (streaming file chunk). -/
  | write
  /-- `res.end(payload?)` — the commit primitive. -/
  | endCall (body : Option BodyVal)
deriving DecidableEq, Repr

/-- Mutable response draft of a Context (`ctx.response`). -/
structure Response where
  status : Nat := 200
  headers : List (String × String) := []
  body : BodyVal := BodyVal.null
deriving DecidableEq, Repr

/-- The per-request context: terminal flags plus response draft, and the
trace of transport calls issued so far on the underlying `res`. -/
structure Ctx where
  ended : Bool := false
  aborted : Bool := false
  response : Response := {}
  events : List TEvent := []
deriving DecidableEq, Repr

/-- Number of `end` calls that reached the transport. -/
def countEnds (evts : List TEvent) : Nat :=
  evts.countP fun e => match e with
    | TEvent.endCall _ => true
    | _ => false

/-- JS object assignment `headers[key] = value`: replace in place if the
key exists, otherwise append. -/
def setHeader : List (String × String) → String → String → List (String × String)
  | [], k, v => [(k, v)]
  | (k0, v0) :: rest, k, v =>
    if k0 == k then (k0, v) :: rest else (k0, v0) :: setHeader rest k v

/-- `ctx.set(key, value)` (source line 1213). -/
def ctxSet (c : Ctx) (k v : String) : Ctx :=
  { c with response := { c.response with headers := setHeader c.response.headers k v } }

/-- The `end` payload of `ctx.send()`: `res.end()` without argument when
`response.body === null`, otherwise the (stringified) body. -/
def bodyPayload : BodyVal → Option BodyVal
  | BodyVal.null => none
  | b => some b

/-- `ctx.send()` (source lines 1229–1255): no-op if `_ended`/`_aborted`,
otherwise cork a status line, all draft headers and a single `end`, and
mark `_ended`. -/
def send (c : Ctx) : Ctx :=
  if c.ended || c.aborted then c
  else
    { c with
      events := c.events
        ++ [TEvent.writeStatus (toString c.response.status)]
        ++ c.response.headers.map (fun kv => TEvent.writeHeader kv.1 kv.2)
        ++ [TEvent.endCall (bodyPayload c.response.body)]
      ended := true }

/-- The `setTimeout` callback of `handleRequest` (source lines 1480–1493):
when the request budget elapses with the context neither ended nor
aborted, mark `_aborted` and commit a 408 directly on the transport. -/
def requestTimeoutFire (c : Ctx) : Ctx :=
  if !c.ended && !c.aborted then
    { c with
      aborted := true
      events := c.events
        ++ [TEvent.writeStatus "408 Request Timeout",
            TEvent.writeHeader "Content-Type" "application/json",
            TEvent.endCall (some (BodyVal.errMsg "请求超时"))] }
  else c

/-! ## ErrorHandler (source lines 922–948) -/

/-- A thrown JS error as `handleError` consumes it: `status`, `code` may
be absent (`none` models JS `undefined`; the code tests them with `||`,
so `0` / `""` also fall back to the defaults). -/
structure JsError where
  status : Option Nat
  message : String
  code : Option String
  stack : String
deriving DecidableEq, Repr

/-- `ErrorHandler.handleError(err, ctx)`: early-return when the context
is ended or aborted; otherwise build the structured error body, include
the stack iff `NODE_ENV !== 'production'`, send, and mark ended. -/
def handleError (env : String) (e : JsError) (c : Ctx) : Ctx :=
  if c.ended || c.aborted then c
  else
    let st : Nat :=
      match e.status with
      | some s => if s == 0 then 500 else s
      | none => 500
    let er : ErrResponse :=
      { success := false
        message := if e.message == "" then "服务器内部错误" else e.message
        code :=
          match e.code with
          | some cd => if cd == "" then "INTERNAL_ERROR" else cd
          | none => "INTERNAL_ERROR"
        error := if env ≠ "production" then some e.stack else none }
    let c1 := { c with response := { c.response with status := st, body := BodyVal.errObj er } }
    let c2 := ctxSet c1 "Content-Type" "application/json"
    let c3 := send c2
    { c3 with ended := true }

/-- The stack field of an emitted error body, `none` for any other body. -/
def bodyStack : BodyVal → Option String
  | BodyVal.errObj e => e.error
  | _ => none

/-! ## Body ingestion (`ctx.parseBody`, source lines 1115–1206)

The `onData` callback is driven by the chunk list: every element is one
data event, the last one carrying `isLast`. `abortAfter = some n` with
`n <` number of chunks means the uWS abort event fires after the first
`n` data events (after an abort uWS delivers no further data); any other
value means no abort interrupts ingestion. `jsonParse` and `decodeComp`
are oracles for the external `JSON.parse` / `decodeURIComponent`
(`none` models a thrown exception). -/

/-- The hard-coded ceiling `MAX_BODY_SIZE = 10 * 1024 * 1024` (line 1117). -/
def MAX_BODY_SIZE : Nat := 10 * 1024 * 1024

/-- Result of the inner promise of `parseBody`: the body value written to
`request.body`, the `_aborted` flag, and whether the promise rejected
(which the outer `try`/`catch` of `parseBody` then swallows). -/
structure PBOut where
  body : BodyVal
  aborted : Bool
  rejected : Bool
deriving DecidableEq, Repr

/-- Form decoding of `application/x-www-form-urlencoded` (lines 1158–1167):
split on `&`, then on `=`, skip pairs with an empty key, percent-decode
key and value. Returns `none` when `decodeURIComponent` throws, in which
case the surrounding `try` falls back to the raw string. -/
def formDecode (decodeComp : String → Option String) (s : String) :
    Option (List (String × String)) :=
  (jsSplit s '&').foldl
    (fun acc pair =>
      match acc with
      | none => none
      | some kvs =>
        let ps := jsSplit pair '='
        let key := ps.headD ""
        if key == "" then some kvs
        else
          match decodeComp key, decodeComp (ps.getD 1 "") with
          | some k, some v => some (setHeader kvs k v)
          | _, _ => none)
    (some [])

/-- Decoding of the concatenated body by declared content type
(lines 1151–1170), with the fallback of the inner `catch` (lines
1175–1179): a failed `JSON.parse` or a throwing `decodeURIComponent`
degrades to the raw string. -/
def decodeBody (jsonParse : String → Option JsVal)
    (decodeComp : String → Option String) (ct : Option String) (s : String) : BodyVal :=
  match ct with
  | some c =>
    if strContains c "application/json" then
      match jsonParse s with
      | some v => BodyVal.json v
      | none => BodyVal.raw s
    else if strContains c "application/x-www-form-urlencoded" then
      match formDecode decodeComp s with
      | some kvs => BodyVal.form kvs
      | none => BodyVal.raw s
    else BodyVal.raw s
  | none => BodyVal.raw s

/-- The `onData` loop (lines 1131–1187): accumulate chunk bytes, reject
with `_aborted = true` as soon as the running total exceeds the ceiling,
decode on the terminal chunk. -/
def deliverChunks (decode : String → BodyVal) (maxB : Nat) :
    Nat → String → List String → PBOut
  | _, acc, [] => ⟨decode acc, false, false⟩
  | total, acc, [c] =>
    let t := total + jsByteLen c
    if maxB < t then ⟨BodyVal.null, true, true⟩
    else ⟨decode (acc ++ c), false, false⟩
  | total, acc, c :: rest =>
    let t := total + jsByteLen c
    if maxB < t then ⟨BodyVal.null, true, true⟩
    else deliverChunks decode maxB t (acc ++ c) rest

/-- Size-only delivery of the chunks that arrive before an abort event:
`true` iff some prefix already exceeds the ceiling (rejecting first). -/
def sizeExceeds (maxB : Nat) : Nat → List String → Bool
  | _, [] => false
  | total, c :: rest =>
    let t := total + jsByteLen c
    maxB < t || sizeExceeds maxB t rest

/-- The body of `parseBody` before its outer `try`/`catch`
(lines 1122–1197). -/
def parseBodyInner (jsonParse : String → Option JsVal)
    (decodeComp : String → Option String) (maxB : Nat)
    (method : String) (ct : Option String) (aborted0 : Bool)
    (chunks : List String) (abortAfter : Option Nat) : PBOut :=
  if method == "GET" || method == "HEAD" || aborted0 then
    ⟨BodyVal.emptyObj, aborted0, false⟩
  else
    let decode := decodeBody jsonParse decodeComp ct
    match abortAfter with
    | some n =>
      if n < chunks.length then
        if sizeExceeds maxB 0 (chunks.take n) then ⟨BodyVal.null, true, true⟩
        else ⟨BodyVal.emptyObj, true, false⟩
      else deliverChunks decode maxB 0 "" chunks
    | none => deliverChunks decode maxB 0 "" chunks

/-- `ctx.parseBody()` as the caller observes it: the outer `catch`
(lines 1198–1205) turns a rejection into `request.body = {}` and a
normal return; `_aborted` keeps whatever the inner code set. -/
def parseBodyGen (jsonParse : String → Option JsVal)
    (decodeComp : String → Option String) (maxB : Nat)
    (method : String) (ct : Option String) (aborted0 : Bool)
    (chunks : List String) (abortAfter : Option Nat) : BodyVal × Bool :=
  let o := parseBodyInner jsonParse decodeComp maxB method ct aborted0 chunks abortAfter
  if o.rejected then (BodyVal.emptyObj, o.aborted) else (o.body, o.aborted)

/-! ## Middleware pipeline (`executeMiddleware`, source lines 1531–1586)

A stage is modelled as the shape the claims quantify over:
`async (ctx, next) => { trace(name+"-pre"); await work(preWork);
⟨action⟩; await work(postWork); trace(name+"-post") }` where the action
invokes `next`, finishes without it, or throws. Each stage invocation is
raced against the budget `B`; the timers all have the same duration and
the outer ones are armed first, so the outermost pending race is always
the one that fires: the race settles against the caller when the
cumulative time consumed exceeds `B`, and the catch of that outermost
race handles the cut (status 503, commit through `send`, no rethrow).
A non-timeout error propagates out of every race unchanged (lines
1577–1580).

`Promise.race` does **not** cancel the losing branch, and
`executeNextMiddleware` never re-checks `_ended`, so after the cut the
suspended computation lives on:

* every enclosing stage was awaiting `next()`, i.e. the
  `executeNextMiddleware` race one level further in; those inner races
  reject one after the other (their timers were armed in nesting order),
  and each rejection returns that `executeNextMiddleware` call normally,
  resuming the post-`next` code of the stage one level out — the
  enclosing stages therefore run their post code and record their post
  markers, outermost first;
* when the await the timed-out stage was suspended on finally settles,
  its body continues: if it invokes `next()`, the downstream stages —
  whose `executed` flags were never set — run in full, with fresh
  per-stage timers; its own post code runs after that chain returns
  (and is skipped when the downstream chain rejects, since the `await
  next()` then rejects into the already-settled race, where the error
  vanishes);
* all of this happens with `_ended` already set by the 503 commit, so
  every later `ctx.send()` is suppressed by `send`'s guard, but the
  stage bodies themselves do execute.

The model below first computes the settled-race view (`runChain`,
reporting on a cut which stages were left suspended and which stages
came after the hang), then replays the uncancelled branches to their
eventual completion (`runFullAux`). The eventual marker trace is one
realizable serialization: the cascaded posts in the order the inner
races reject, then the resumed downstream chain (realized when the
hanging await outlasts the cascade); the theorems do not rely on the
interleaving beyond the settled/resumed split. -/

/-- How a stage proceeds after its pre-work. -/
inductive StageAct
  /-- Invokes `next()` and awaits the downstream chain. -/
  | callNext
  /-- Returns without invoking `next`. -/
  | finish
  /-- Throws an error with the given message. -/
  | throwErr (msg : String)
deriving DecidableEq, Repr

/-- A middleware stage as used by the claims. -/
structure Stage where
  name : String
  preWork : Nat
  action : StageAct
  postWork : Nat
deriving DecidableEq, Repr

/-- Outcome of running (part of) the chain, as the awaiting caller sees
the races settle. On a timeout cut, the suspension structure is
reported: which enclosing stages were still awaiting `next()`
(outermost first), which stage was suspended mid-await, and — when the
cut hit its pre-`next` work — which downstream stages had not started. -/
inductive RunRes
  /-- Settled normally with this much budget left. -/
  | done (rem : Nat)
  /-- A stage threw: the error propagates up through the `next` calls. -/
  | raised (msg : String)
  /-- The outermost timer fired while `hang`'s pre-`next` work was
  pending; `outer` are the enclosing suspended stages, `rest` the
  stages after `hang`, which `hang`'s `next()` has not yet invoked. -/
  | cutInPre (outer : List Stage) (hang : Stage) (rest : List Stage)
  /-- The outermost timer fired while `st`'s post-`next` work was
  pending (its downstream chain had already settled). -/
  | cutInPost (outer : List Stage) (st : Stage)
deriving DecidableEq, Repr

/-- `executeNextMiddleware` (lines 1543–1582) restricted to its effects
as observed through the settling races: marker trace plus outcome. The
stage list is the suffix of `this.middlewares` starting at the current
index. -/
def runChain : List Stage → Nat → List String → List String × RunRes
  | [], rem, tr => (tr, RunRes.done rem)
  | s :: rest, rem, tr =>
    let tr1 := tr ++ [s.name ++ "-pre"]
    if rem < s.preWork then (tr1, RunRes.cutInPre [] s rest)
    else
      let rem1 := rem - s.preWork
      match s.action with
      | StageAct.throwErr m => (tr1, RunRes.raised m)
      | StageAct.finish =>
        if rem1 < s.postWork then (tr1, RunRes.cutInPost [] s)
        else (tr1 ++ [s.name ++ "-post"], RunRes.done (rem1 - s.postWork))
      | StageAct.callNext =>
        match runChain rest rem1 tr1 with
        | (tr2, RunRes.raised m) => (tr2, RunRes.raised m)
        | (tr2, RunRes.cutInPre outer hang rest2) =>
          (tr2, RunRes.cutInPre (s :: outer) hang rest2)
        | (tr2, RunRes.cutInPost outer st) =>
          (tr2, RunRes.cutInPost (s :: outer) st)
        | (tr2, RunRes.done rem2) =>
          if rem2 < s.postWork then (tr2, RunRes.cutInPost [] s)
          else (tr2 ++ [s.name ++ "-post"], RunRes.done (rem2 - s.postWork))

/-- Result of `executeMiddleware`: final context, the eventual marker
trace (including markers recorded by uncancelled branches after the 503
commit), and the error it rethrows to `handleRequest` (if any). -/
structure MWOut where
  ctx : Ctx
  trace : List String
  err : Option String
deriving DecidableEq, Repr

/-- The catch body of the outermost timed-out race (lines 1571–1576):
`ctx.status = 503`, `ctx.body = {error: …}`, `ctx.send()`,
`ctx._ended = true`. -/
def commit503 (c : Ctx) : Ctx :=
  { send { c with response := { c.response with
      status := 503, body := BodyVal.errMsg "服务暂时不可用，请稍后再试" } }
    with ended := true }

/-- `executeMiddleware(ctx)` (lines 1531–1586) run to quiescence: the
settled-race view of `runChain`, then — on a cut — the 503 commit of
the outermost catch followed by the uncancelled branches replayed to
completion: the cascaded post code of the enclosing stages, and the
resumption of the suspended stage, whose `next()` runs the downstream
stages (a fresh `executeNextMiddleware` chain with fresh timers,
modelled by the recursive call — its own cut commits are suppressed by
`_ended`, and an error it rethrows is swallowed by the already-settled
race). The first argument is structural fuel, instantiated with
`stages.length + 1`, which bounds the recursion depth (each resumption
drops at least the hanging stage). -/
def runFullAux : Nat → List Stage → Nat → Ctx → MWOut
  | 0, _, _, c => ⟨c, [], none⟩
  | fuel + 1, stages, B, c =>
    match stages with
    | [] => ⟨c, [], none⟩
    | _ :: _ =>
      match runChain stages B [] with
      | (tr, RunRes.done _) => ⟨c, tr, none⟩
      | (tr, RunRes.raised m) => ⟨c, tr, some m⟩
      | (tr, RunRes.cutInPre outer hang rest) =>
        let c3 := commit503 c
        let cascade := outer.map (fun s => s.name ++ "-post")
        match hang.action with
        | StageAct.callNext =>
          let o := runFullAux fuel rest B c3
          match o.err with
          | none => ⟨o.ctx, tr ++ cascade ++ o.trace ++ [hang.name ++ "-post"], none⟩
          | some _ => ⟨o.ctx, tr ++ cascade ++ o.trace, none⟩
        | StageAct.finish => ⟨c3, tr ++ cascade ++ [hang.name ++ "-post"], none⟩
        | StageAct.throwErr _ => ⟨c3, tr ++ cascade, none⟩
      | (tr, RunRes.cutInPost outer st) =>
        ⟨commit503 c,
          tr ++ outer.map (fun s => s.name ++ "-post") ++ [st.name ++ "-post"], none⟩

/-- `executeMiddleware(ctx)` on a registered stage list: the empty chain
is a no-op (line 1535); otherwise run to quiescence. -/
def executeMiddlewareM (stages : List Stage) (B : Nat) (c : Ctx) : MWOut :=
  runFullAux (stages.length + 1) stages B c

/-- The pre markers of a stage list, in order. -/
def presOf (ss : List Stage) : List String := ss.map (fun s => s.name ++ "-pre")

/-- Total pre-`next` work of a stage list. -/
def preSum : List Stage → Nat
  | [] => 0
  | s :: rest => s.preWork + preSum rest

/-! ## `handleRequest` after context creation (source lines 1501–1518)

`await ctx.parseBody().catch(ErrorHandler…)` never surfaces an error
(the outer catch inside `parseBody` already swallows every rejection),
then the middleware chain runs only when the context is neither ended
nor aborted, a rethrown stage error goes to `ErrorHandler.handleError`,
and a still-uncommitted context receives the default `ctx.send()`. -/

/-- Result of the modelled request handling. -/
structure HROut where
  ctx : Ctx
  middlewareRan : Bool
  trace : List String
deriving DecidableEq, Repr

/-- The body-ingestion + middleware phase of `handleRequest`. -/
def handleRequestModel (env : String) (stages : List Stage) (B : Nat)
    (jsonParse : String → Option JsVal) (decodeComp : String → Option String)
    (maxB : Nat) (method : String) (ct : Option String)
    (chunks : List String) (abortAfter : Option Nat) (c0 : Ctx) : HROut :=
  let pb := parseBodyGen jsonParse decodeComp maxB method ct c0.aborted chunks abortAfter
  let c := { c0 with aborted := pb.2 }
  if !c.ended && !c.aborted then
    let o := executeMiddlewareM stages B c
    match o.err with
    | some m =>
      ⟨handleError env ⟨none, m, none, ""⟩ o.ctx, true, o.trace⟩
    | none =>
      let c2 := if !o.ctx.ended && !o.ctx.aborted then send o.ctx else o.ctx
      ⟨c2, true, o.trace⟩
  else ⟨c, false, []⟩

/-! ## POSIX `path.resolve` / `path.extname` (Node `path`, used by the core) -/

/-- Segment normalization of `path.resolve`: drop empty and `.` segments,
let `..` pop the previous segment (and vanish at the root). The first
argument is the processed stack in reverse order. -/
def normSegs : List String → List String → List String
  | stack, [] => stack.reverse
  | stack, s :: rest =>
    if s == "" || s == "." then normSegs stack rest
    else if s == ".." then normSegs stack.tail rest
    else normSegs (s :: stack) rest

/-- `path.resolve(parts…)` for POSIX paths whose first part is absolute:
later absolute parts restart the resolution, then segments are
normalized; the result carries no trailing slash and the root is `/`. -/
def jsResolve (parts : List String) : String :=
  let segs := parts.foldl
    (fun acc p => if jsStarts p "/" then jsSplit p '/' else acc ++ jsSplit p '/') []
  "/" ++ joinWith '/' (normSegs [] segs)

/-- Lower-cased extension (with dot) of the last path segment, `""` when
the basename has no dot beyond a leading one — `path.extname` restricted
to the cases the content-type table needs. -/
def extnameOf (p : String) : String :=
  let base := (jsSplit p '/').getLastD ""
  match (jsSplit base '.') with
  | [] => ""
  | [_] => ""
  | _ :: rest =>
    if jsStarts base "." && rest.length == 1 then ""
    else "." ++ ofChars ((chars (rest.getLastD "")).map Char.toLower)

/-- `getContentType` (source lines 898–919). -/
def getContentType (filePath : String) : String :=
  let ext := extnameOf filePath
  let table : List (String × String) :=
    [(".html", "text/html"), (".js", "text/javascript"), (".css", "text/css"),
     (".json", "application/json"), (".png", "image/png"), (".jpg", "image/jpeg"),
     (".jpeg", "image/jpeg"), (".gif", "image/gif"), (".svg", "image/svg+xml"),
     (".ico", "image/x-icon"), (".txt", "text/plain"), (".pdf", "application/pdf"),
     (".mp4", "video/mp4"), (".webm", "video/webm"), (".mp3", "audio/mpeg"),
     (".wav", "audio/wav")]
  match table.find? (fun kv => kv.1 == ext) with
  | some kv => kv.2
  | none => "application/octet-stream"

/-! ## File transfer engine (`ctx.sendFile`, source lines 1257–1375)

The filesystem is an oracle: `statOf` returns `(isFile, size)` or `none`
for a stat failure (`ENOENT`), `contentOf` the buffered content of a
small file, and `readThrows` makes the first `fs.readSync` of the
streaming loop throw. The schedule says at which `await` point an
asynchronous event fires: `timeoutDuringRead` runs the request-timeout
callback of `handleRequest` while `fs.promises.readFile` of the
small-file path is pending; `abortDuringOpen` delivers a client abort
while `fsOpen` is pending (before `sendFile` installs its own `onAborted`
handler, so only the `handleRequest` handler marks `_aborted`);
`abortDuringClose` delivers a client abort while the `fsClose` call of
the large-file path is pending (the `sendFile` handler is installed:
it re-checks `fd !== null` — still true, the code nulls `fd` only after
the `await` — and closes again). The streaming `while` loop itself is
fully synchronous (`fs.readSync`, corked writes), so no event can fire
inside it. -/

/-- Small-file threshold `MAX_SMALL_FILE_SIZE = 1024 * 1024` (line 1281). -/
def MAX_SMALL_FILE_SIZE : Nat := 1024 * 1024

/-- Streaming chunk size `BUFFER_SIZE = 64 * 1024` (line 1296). -/
def BUFFER_SIZE : Nat := 64 * 1024

/-- Filesystem oracle. -/
structure FileSys where
  statOf : String → Option (Bool × Nat)
  contentOf : String → String
  readThrows : Bool

/-- Event schedule for one `sendFile` invocation. -/
structure SFSched where
  timeoutDuringRead : Bool := false
  abortDuringOpen : Bool := false
  abortDuringClose : Bool := false

/-- Observable outcome of `sendFile`: resulting context, returned value,
and how many filesystem calls of each kind were made. -/
structure SFOut where
  ctx : Ctx
  result : Bool
  statCalls : Nat
  openCalls : Nat
  closeCalls : Nat
deriving Repr

/-- The synchronous streaming loop (lines 1319–1330): one corked
`res.write` per `readSync` of at most `BUFFER_SIZE` bytes. The first
argument is structural fuel (instantiated with the byte count, which
bounds the iteration count). -/
def streamLoop : Nat → Nat → Ctx → Ctx
  | _, 0, c => c
  | 0, _ + 1, c => c
  | fuel + 1, rem + 1, c =>
    let n := min BUFFER_SIZE (rem + 1)
    streamLoop fuel (rem + 1 - n) { c with events := c.events ++ [TEvent.write] }

/-- `ctx.sendFile(filePath)` (lines 1257–1375). -/
def sendFile (fs : FileSys) (sched : SFSched) (rootDir : String)
    (c : Ctx) (filePath : String) : SFOut :=
  if c.ended || c.aborted then ⟨c, false, 0, 0, 0⟩
  else
    let fp := if jsStarts filePath "/" then jsDrop filePath 1 else filePath
    let fullPath := jsResolve [rootDir, fp]
    match fs.statOf fullPath with
    | none =>
      -- `fs.promises.stat` threw `ENOENT`: catch path, `fd` still null
      let c1 := { c with response := { c.response with status := 404 } }
      let c2 := ctxSet c1 "Content-Type" "text/html"
      let c3 := { c2 with response := { c2.response with
        body := BodyVal.raw "<h1>404 Not Found</h1><p>The requested resource was not found.</p>" } }
      let c4 := send c3
      ⟨{ c4 with ended := true }, false, 1, 0, 0⟩
    | some (isF, size) =>
      if !isF then
        -- lines 1272–1278: not a regular file
        let c1 := { c with response := { c.response with
          status := 404, body := BodyVal.raw "<h1>404 Not Found</h1><p>Invalid path.</p>" } }
        let c2 := send c1
        ⟨{ c2 with ended := true }, false, 1, 0, 0⟩
      else if size ≤ MAX_SMALL_FILE_SIZE then
        -- lines 1280–1292: buffered path. The commit after the
        -- `readFile` await re-checks neither `_ended` nor `_aborted`.
        let c1 := if sched.timeoutDuringRead then requestTimeoutFire c else c
        let c2 := { c1 with
          events := c1.events
            ++ [TEvent.writeStatus "200 OK",
                TEvent.writeHeader "Content-Type" (getContentType fullPath),
                TEvent.writeHeader "Content-Length" (toString size),
                TEvent.endCall (some (BodyVal.raw (fs.contentOf fullPath)))]
          ended := true }
        ⟨c2, true, 1, 0, 0⟩
      else
        -- lines 1294–1345: streaming path
        let c1 := if sched.abortDuringOpen then { c with aborted := true } else c
        -- headers are corked without re-checking the flags (lines 1309–1313)
        let c2 := { c1 with
          events := c1.events
            ++ [TEvent.writeStatus "200 OK",
                TEvent.writeHeader "Content-Type" (getContentType fullPath),
                TEvent.writeHeader "Content-Length" (toString size)] }
        if fs.readThrows && !c2.aborted then
          -- `fs.readSync` threw: catch path with `fd` open (lines 1346–1374)
          let closes := if sched.abortDuringClose then 2 else 1
          let c3 := if sched.abortDuringClose then { c2 with aborted := true } else c2
          if c3.aborted || c3.ended then ⟨c3, false, 1, 1, closes⟩
          else
            let c4 := { c3 with response := { c3.response with status := 500 } }
            let c5 := ctxSet c4 "Content-Type" "text/html"
            let c6 := { c5 with response := { c5.response with
              body := BodyVal.raw "<h1>500 Internal Server Error</h1><p>Error reading file.</p>" } }
            let c7 := send c6
            ⟨{ c7 with ended := true }, false, 1, 1, closes⟩
        else
          let c3 := if c2.aborted then c2 else streamLoop size size c2
          -- lines 1332–1336: `await fsClose(fd)`, then `fd = null`; an
          -- abort during the await finds `fd` non-null and closes again
          let closes := if sched.abortDuringClose then 2 else 1
          let c4 := if sched.abortDuringClose then { c3 with aborted := true } else c3
          if !c4.aborted then
            ⟨{ c4 with events := c4.events ++ [TEvent.endCall none], ended := true },
              true, 1, 1, closes⟩
          else ⟨c4, false, 1, 1, closes⟩

/-! ## Static file middleware (`serveStatic`, source lines 1411–1465) -/

/-- Registration-time normalization of `serveStatic(urlPrefix, rootDir)`
(lines 1413–1429): `none` models the thrown configuration errors. -/
structure StaticCfg where
  urlPrefix : String
  rootDir : String
deriving DecidableEq, Repr

/-- Normalize the `serveStatic` arguments as registration does. -/
def serveStaticInit (urlPrefix0 rootDir0 : String) : Option StaticCfg :=
  if jsTrim rootDir0 == "" then none
  else
    let up1 := if jsStarts urlPrefix0 "/" then urlPrefix0 else "/" ++ urlPrefix0
    let up2 := if jsEnds up1 "/" then up1 else up1 ++ "/"
    let rd1 := jsTrim rootDir0
    if rd1 == "/" || rd1 == "\\" then none
    else
      let rd2 := ofChars ((chars rd1).map fun ch => if ch == '\\' then '/' else ch)
      let rd3 := if jsEnds rd2 "/" then rd2 else rd2 ++ "/"
      some ⟨up2, rd3⟩

/-- What the registered static middleware does with a request. -/
inductive StaticDecision
  /-- Falls through to `next()` (wrong method or prefix). -/
  | callNext
  /-- Context already ended/aborted: plain return. -/
  | skipEnded
  /-- Containment check failed: `ctx.status = 403`, return, no fs access. -/
  | forbidden
  /-- `ctx.sendFile(fullPath)` is invoked: the filesystem is reached. -/
  | serve (fullPath : String)
deriving DecidableEq, Repr

/-- One execution of the middleware registered by `serveStatic`
(lines 1431–1461) up to the point where it either rejects, falls
through, or hands the resolved path to `sendFile`. -/
def serveStaticStep (optRootDir : String) (cfg : StaticCfg)
    (method url : String) (c : Ctx) : Ctx × StaticDecision :=
  if method == "GET" && jsStarts url cfg.urlPrefix then
    if c.ended || c.aborted then (c, StaticDecision.skipEnded)
    else
      let relativePath := jsDrop url (jsLen cfg.urlPrefix)
      let fullPath := jsResolve [optRootDir, cfg.rootDir, relativePath]
      let resolvedRoot := jsResolve [optRootDir, cfg.rootDir]
      if !(jsStarts fullPath resolvedRoot) then
        ({ c with response := { c.response with status := 403 } },
          StaticDecision.forbidden)
      else (c, StaticDecision.serve fullPath)
  else (c, StaticDecision.callNext)

/-- The claim's containment property (spec §4.4/§8): the resolved path is
the root itself or lies strictly below it — a string prefix only counts
with a path-separator boundary. -/
def underRoot (fullPath root : String) : Bool :=
  fullPath == root || jsStarts fullPath (root ++ "/")

/-! ## Routing (`parseParams` lines 1102–1113, `matchPattern` lines
1630–1667) and the transport's URL accessors -/

/-- `ctx.parseParams(pattern)`: split the stored URL and the pattern on
`/` (no query stripping, no empty-segment filtering) and bind every
`:name` pattern segment to the URL segment at the same index
(`urlParts[i] || ''`). -/
def parseParams (url pattern : String)
    (params : List (String × String)) : List (String × String) :=
  let patternParts := jsSplit pattern '/'
  let urlParts := jsSplit url '/'
  (List.range patternParts.length).foldl
    (fun ps i =>
      let pp := patternParts.getD i ""
      if jsStarts pp ":" then
        setHeader ps (jsDrop pp 1) (urlParts.getD i "")
      else ps)
    params

/-- `matchPattern(url, pattern)`: strip the query string, handle a
trailing `/*` wildcard, otherwise compare segment lists (empty segments
filtered) with `:param` and `*` matching anything. -/
def matchPattern (url pattern : String) : Bool :=
  let urlPath := (jsSplit url '?').headD ""
  if jsEnds pattern "/*" then
    let prefixStr := ofChars ((chars pattern).take (jsLen pattern - 2))
    urlPath == prefixStr || jsStarts urlPath (prefixStr ++ "/")
  else
    let urlParts := (jsSplit urlPath '/').filter (fun s => !(s == ""))
    let patternParts := (jsSplit pattern '/').filter (fun s => !(s == ""))
    if urlParts.length ≠ patternParts.length then false
    else
      (List.range patternParts.length).all fun i =>
        let pp := patternParts.getD i ""
        jsStarts pp ":" || pp == "*" || pp == urlParts.getD i ""

/-- Modelled from the spec: the Transport Capability (uWebSockets.js,
external to this repository) exposes the request line through separate
accessors `get-path` and `get-raw-query` (spec §6, §4.1); `req.getUrl()`
is the get-path accessor and returns the path without the query string,
`req.getQuery()` returns the raw query string. A request targeting
`path?query` is therefore delivered as this pair. -/
structure TransportReq where
  path : String
  rawQuery : String
deriving DecidableEq, Repr

/-- `createContext` stores `request.url = req.getUrl()` (line 100/1102
context): the context URL is the transport path. -/
def ctxUrl (r : TransportReq) : String := r.path

/-- The route wrapper (lines 1594–1623) restricted to parameter
extraction: when method and pattern match, `parseParams` fills
`request.params` (starting from the empty map). -/
def routeParams (r : TransportReq) (pattern : String) :
    Option (List (String × String)) :=
  if matchPattern (ctxUrl r) pattern then
    some (parseParams (ctxUrl r) pattern [])
  else none

/-! ## Helper lemmas about `send` and `runChain` -/

lemma countEnds_append (a b : List TEvent) :
    countEnds (a ++ b) = countEnds a + countEnds b := by
  simp [countEnds, List.countP_append]

/-- An unguarded `send` contributes exactly one `end` call. -/
lemma countEnds_send (c : Ctx) (h1 : c.ended = false) (h2 : c.aborted = false) :
    countEnds (send c).events = countEnds c.events + 1 := by
  simp only [send, h1, h2, Bool.or_self, Bool.false_eq_true, if_false]
  simp [countEnds, List.countP_append, List.countP_map, Function.comp]

/-- `send` never touches the response draft. -/
lemma send_response (c : Ctx) : (send c).response = c.response := by
  unfold send
  split <;> rfl

/-- The 503 catch leaves `_ended` set. -/
lemma commit503_ended (c : Ctx) : (commit503 c).ended = true := rfl

/-- The 503 catch leaves status 503 in the draft. -/
lemma commit503_status (c : Ctx) : (commit503 c).response.status = 503 := by
  simp [commit503, send_response]

/-- On an already-committed context the 503 catch adds no transport call
(its `ctx.send()` is suppressed by the guard). -/
lemma commit503_events_of_ended (c : Ctx) (hE : c.ended = true) :
    (commit503 c).events = c.events := by
  simp [commit503, send, hE]

/-- On a fresh context the 503 catch commits exactly one `end` call. -/
lemma commit503_count (c : Ctx) (hend : c.ended = false) (hab : c.aborted = false) :
    countEnds (commit503 c).events = countEnds c.events + 1 := by
  have h := countEnds_send { c with response := { c.response with
    status := 503, body := BodyVal.errMsg "服务暂时不可用，请稍后再试" } } hend hab
  simpa [commit503] using h

/-- Work a fully-`next`-calling chain consumes (pre + downstream + post). -/
def totalWork : List Stage → Nat
  | [] => 0
  | s :: rest => s.preWork + totalWork rest + s.postWork

/-- The onion-shaped marker trace of a fully-`next`-calling chain. -/
def onionTrace : List Stage → List String
  | [] => []
  | s :: rest => (s.name ++ "-pre") :: (onionTrace rest ++ [s.name ++ "-post"])

/-- A chain of stages that all call `next`, whose total work fits the
remaining budget, settles normally and appends exactly the onion trace. -/
lemma runChain_done (ss : List Stage) (hnext : ∀ s ∈ ss, s.action = StageAct.callNext) :
    ∀ (rem : Nat) (tr : List String), totalWork ss ≤ rem →
      runChain ss rem tr = (tr ++ onionTrace ss, RunRes.done (rem - totalWork ss)) := by
  induction ss with
  | nil => intro rem tr _; simp [runChain, onionTrace, totalWork]
  | cons s rest ih =>
    intro rem tr hW
    have hs : s.action = StageAct.callNext := hnext s (List.mem_cons_self s rest)
    have hrest : ∀ t ∈ rest, t.action = StageAct.callNext :=
      fun t ht => hnext t (List.mem_cons_of_mem s ht)
    have hW' : s.preWork + totalWork rest + s.postWork ≤ rem := by
      simpa [totalWork] using hW
    have hpre : ¬ rem < s.preWork := by omega
    have hWrest : totalWork rest ≤ rem - s.preWork := by omega
    have hpost : ¬ rem - s.preWork - totalWork rest < s.postWork := by omega
    simp only [runChain, hs, if_neg hpre, ih hrest (rem - s.preWork) _ hWrest,
      if_neg hpost, onionTrace, totalWork, Prod.mk.injEq]
    refine ⟨by simp, ?_⟩
    congr 1
    omega

/-- Exact settled-race view of a chain whose `next`-calling prefix fits
the budget while the following stage's pre-`next` work does not: the cut
happens inside that stage's pre-work, only the pre markers up to and
including it are recorded, and the suspension structure is exactly the
prefix / hang / suffix split. -/
lemma runChain_cut_exact (hang : Stage) (ys : List Stage) :
    ∀ (xs : List Stage) (rem : Nat) (tr : List String),
      (∀ s ∈ xs, s.action = StageAct.callNext) → preSum xs ≤ rem →
      rem - preSum xs < hang.preWork →
      runChain (xs ++ hang :: ys) rem tr
        = (tr ++ presOf xs ++ [hang.name ++ "-pre"], RunRes.cutInPre xs hang ys) := by
  intro xs
  induction xs with
  | nil =>
    intro rem tr _ _ hrem
    simp only [preSum, Nat.sub_zero] at hrem
    simp only [List.nil_append, runChain, if_pos hrem, presOf, List.map_nil]
    simp
  | cons x xs' ih =>
    intro rem tr hnext hfit hrem
    have hx : x.action = StageAct.callNext := hnext x (List.mem_cons_self x xs')
    have hxs' : ∀ s ∈ xs', s.action = StageAct.callNext :=
      fun s hs => hnext s (List.mem_cons_of_mem x hs)
    simp only [preSum] at hfit hrem
    have hpre : ¬ rem < x.preWork := by omega
    have h1 : preSum xs' ≤ rem - x.preWork := by omega
    have h2 : rem - x.preWork - preSum xs' < hang.preWork := by omega
    simp only [List.cons_append, runChain, if_neg hpre, hx, List.append_eq,
      ih (rem - x.preWork) (tr ++ [x.name ++ "-pre"]) hxs' h1 h2]
    simp [presOf]

/-- The trace accumulator of `runChain` only grows. -/
lemma runChain_extends (ss : List Stage) :
    ∀ (rem : Nat) (tr : List String), ∃ u, (runChain ss rem tr).1 = tr ++ u := by
  induction ss with
  | nil => intro rem tr; exact ⟨[], by simp [runChain]⟩
  | cons s rest ih =>
    intro rem tr
    by_cases hpre : rem < s.preWork
    · exact ⟨[s.name ++ "-pre"], by simp [runChain, hpre]⟩
    · cases ha : s.action with
      | throwErr m => exact ⟨[s.name ++ "-pre"], by simp [runChain, hpre, ha]⟩
      | finish =>
        by_cases hpost : rem - s.preWork < s.postWork
        · exact ⟨[s.name ++ "-pre"], by simp [runChain, hpre, ha, hpost]⟩
        · exact ⟨[s.name ++ "-pre", s.name ++ "-post"],
            by simp [runChain, hpre, ha, hpost]⟩
      | callNext =>
        obtain ⟨u, hu⟩ := ih (rem - s.preWork) (tr ++ [s.name ++ "-pre"])
        rcases hr : runChain rest (rem - s.preWork) (tr ++ [s.name ++ "-pre"])
          with ⟨tr2, res⟩
        rw [hr] at hu
        simp only at hu
        cases res with
        | done rem2 =>
          by_cases hpost : rem2 < s.postWork
          · exact ⟨[s.name ++ "-pre"] ++ u,
              by simp only [runChain, if_neg hpre, ha, hr, if_pos hpost]; simp [hu]⟩
          · exact ⟨[s.name ++ "-pre"] ++ u ++ [s.name ++ "-post"],
              by simp only [runChain, if_neg hpre, ha, hr, if_neg hpost]; simp [hu]⟩
        | raised m =>
          exact ⟨[s.name ++ "-pre"] ++ u,
            by simp only [runChain, if_neg hpre, ha, hr]; simp [hu]⟩
        | cutInPre outer hg r =>
          exact ⟨[s.name ++ "-pre"] ++ u,
            by simp only [runChain, if_neg hpre, ha, hr]; simp [hu]⟩
        | cutInPost outer st =>
          exact ⟨[s.name ++ "-pre"] ++ u,
            by simp only [runChain, if_neg hpre, ha, hr]; simp [hu]⟩

/-- Markers already in the accumulator survive `runChain`. -/
lemma runChain_mem (ss : List Stage) (rem : Nat) (tr : List String) (m : String)
    (h : m ∈ tr) : m ∈ (runChain ss rem tr).1 := by
  obtain ⟨u, hu⟩ := runChain_extends ss rem tr
  rw [hu]
  exact List.mem_append_left u h

/-- The first stage of a chain always records its pre marker, whatever
the outcome. -/
lemma runChain_head_pre (s : Stage) (rest : List Stage) (rem : Nat) (tr : List String) :
    (s.name ++ "-pre") ∈ (runChain (s :: rest) rem tr).1 := by
  by_cases hpre : rem < s.preWork
  · simp [runChain, hpre]
  · cases ha : s.action with
    | throwErr m => simp [runChain, hpre, ha]
    | finish =>
      by_cases hpost : rem - s.preWork < s.postWork
      · simp [runChain, hpre, ha, hpost]
      · simp [runChain, hpre, ha, hpost]
    | callNext =>
      have hmem := runChain_mem rest (rem - s.preWork) (tr ++ [s.name ++ "-pre"])
        (s.name ++ "-pre") (by simp)
      rcases hr : runChain rest (rem - s.preWork) (tr ++ [s.name ++ "-pre"])
        with ⟨tr2, res⟩
      rw [hr] at hmem
      simp only at hmem
      cases res with
      | done rem2 =>
        by_cases hpost : rem2 < s.postWork
        · simp only [runChain, if_neg hpre, ha, hr, if_pos hpost]
          exact hmem
        · simp only [runChain, if_neg hpre, ha, hr, if_neg hpost]
          exact List.mem_append_left _ hmem
      | raised m => simp only [runChain, if_neg hpre, ha, hr]; exact hmem
      | cutInPre outer hg r => simp only [runChain, if_neg hpre, ha, hr]; exact hmem
      | cutInPost outer st => simp only [runChain, if_neg hpre, ha, hr]; exact hmem

/-- Evaluation of the replay on a chain whose settled view is a cut
inside a stage's pre-work. -/
lemma runFullAux_cut_eval (fuel : Nat) (ss : List Stage) (hne : ss ≠ [])
    (B : Nat) (c : Ctx) (tr : List String) (outer : List Stage) (hang : Stage)
    (rest : List Stage)
    (hr : runChain ss B [] = (tr, RunRes.cutInPre outer hang rest)) :
    runFullAux (fuel + 1) ss B c =
      (match hang.action with
      | StageAct.callNext =>
        match (runFullAux fuel rest B (commit503 c)).err with
        | none => ⟨(runFullAux fuel rest B (commit503 c)).ctx,
            tr ++ outer.map (fun s => s.name ++ "-post")
            ++ (runFullAux fuel rest B (commit503 c)).trace
            ++ [hang.name ++ "-post"], none⟩
        | some _ => ⟨(runFullAux fuel rest B (commit503 c)).ctx,
            tr ++ outer.map (fun s => s.name ++ "-post")
            ++ (runFullAux fuel rest B (commit503 c)).trace, none⟩
      | StageAct.finish => ⟨commit503 c, tr ++ outer.map (fun s => s.name ++ "-post")
          ++ [hang.name ++ "-post"], none⟩
      | StageAct.throwErr _ => ⟨commit503 c, tr ++ outer.map (fun s => s.name ++ "-post"),
          none⟩) := by
  cases ss with
  | nil => exact absurd rfl hne
  | cons a as =>
    simp only [runFullAux]
    rw [hr]

/-- Evaluation of the replay on a chain whose settled view is a thrown
error. -/
lemma runFullAux_raised_eval (fuel : Nat) (ss : List Stage) (hne : ss ≠ [])
    (B : Nat) (c : Ctx) (tr : List String) (m : String)
    (hr : runChain ss B [] = (tr, RunRes.raised m)) :
    runFullAux (fuel + 1) ss B c = ⟨c, tr, some m⟩ := by
  cases ss with
  | nil => exact absurd rfl hne
  | cons a as =>
    simp only [runFullAux]
    rw [hr]

/-- Evaluation of the replay on a chain whose settled view is a cut
inside a stage's post-work. -/
lemma runFullAux_cutpost_eval (fuel : Nat) (ss : List Stage) (hne : ss ≠ [])
    (B : Nat) (c : Ctx) (tr : List String) (outer : List Stage) (st : Stage)
    (hr : runChain ss B [] = (tr, RunRes.cutInPost outer st)) :
    runFullAux (fuel + 1) ss B c =
      ⟨commit503 c,
        tr ++ outer.map (fun s => s.name ++ "-post") ++ [st.name ++ "-post"], none⟩ := by
  cases ss with
  | nil => exact absurd rfl hne
  | cons a as =>
    simp only [runFullAux]
    rw [hr]

/-- Evaluation of the replay on a chain that settles normally. -/
lemma runFullAux_done_eval (fuel : Nat) (ss : List Stage) (hne : ss ≠ [])
    (B : Nat) (c : Ctx) (tr : List String) (rem : Nat)
    (hr : runChain ss B [] = (tr, RunRes.done rem)) :
    runFullAux (fuel + 1) ss B c = ⟨c, tr, none⟩ := by
  cases ss with
  | nil => exact absurd rfl hne
  | cons a as =>
    simp only [runFullAux]
    rw [hr]

/-- Once the context is committed with a 503 draft, the replay of the
uncancelled branches issues no further transport call, keeps `_ended`
set and keeps the 503 status (later cut catches re-assign 503 and their
`ctx.send()` is suppressed by the guard). -/
lemma runFullAux_committed :
    ∀ (fuel : Nat) (ss : List Stage) (B : Nat) (c : Ctx),
      c.ended = true → c.response.status = 503 →
      (runFullAux fuel ss B c).ctx.events = c.events ∧
      (runFullAux fuel ss B c).ctx.ended = true ∧
      (runFullAux fuel ss B c).ctx.response.status = 503 := by
  intro fuel
  induction fuel with
  | zero =>
    intro ss B c hE hS
    exact ⟨rfl, hE, hS⟩
  | succ n ih =>
    intro ss B c hE hS
    cases ss with
    | nil => exact ⟨rfl, hE, hS⟩
    | cons a as =>
      rcases hr : runChain (a :: as) B [] with ⟨tr, res⟩
      cases res with
      | done rem =>
        rw [runFullAux_done_eval n (a :: as) (by simp) B c tr rem hr]
        exact ⟨rfl, hE, hS⟩
      | raised m =>
        rw [runFullAux_raised_eval n (a :: as) (by simp) B c tr m hr]
        exact ⟨rfl, hE, hS⟩
      | cutInPre outer hang rest =>
        rw [runFullAux_cut_eval n (a :: as) (by simp) B c tr outer hang rest hr]
        cases hact : hang.action with
        | callNext =>
          have h3 := ih rest B (commit503 c) (commit503_ended c) (commit503_status c)
          rcases ho : runFullAux n rest B (commit503 c) with ⟨octx, otr, oerr⟩
          rw [ho] at h3
          simp only at h3
          cases oerr <;>
            exact ⟨h3.1.trans (commit503_events_of_ended c hE), h3.2.1, h3.2.2⟩
        | finish =>
          exact ⟨commit503_events_of_ended c hE, commit503_ended c, commit503_status c⟩
        | throwErr m =>
          exact ⟨commit503_events_of_ended c hE, commit503_ended c, commit503_status c⟩
      | cutInPost outer st =>
        rw [runFullAux_cutpost_eval n (a :: as) (by simp) B c tr outer st hr]
        exact ⟨commit503_events_of_ended c hE, commit503_ended c, commit503_status c⟩

/-- The replay of a nonempty chain always records the first stage's pre
marker. -/
lemma runFullAux_head_pre (fuel : Nat) (y : Stage) (ys' : List Stage)
    (B : Nat) (c : Ctx) :
    (y.name ++ "-pre") ∈ (runFullAux (fuel + 1) (y :: ys') B c).trace := by
  have hmem := runChain_head_pre y ys' B []
  rcases hr : runChain (y :: ys') B [] with ⟨tr, res⟩
  rw [hr] at hmem
  simp only at hmem
  cases res with
  | done rem =>
    rw [runFullAux_done_eval fuel (y :: ys') (by simp) B c tr rem hr]
    simpa using hmem
  | raised m =>
    rw [runFullAux_raised_eval fuel (y :: ys') (by simp) B c tr m hr]
    simpa using hmem
  | cutInPre outer hang rest =>
    rw [runFullAux_cut_eval fuel (y :: ys') (by simp) B c tr outer hang rest hr]
    cases hact : hang.action with
    | callNext =>
      rcases ho : runFullAux fuel rest B (commit503 c) with ⟨octx, otr, oerr⟩
      cases oerr <;> simp [List.mem_append, hmem]
    | finish =>
      simp [List.mem_append, hmem]
    | throwErr m =>
      simp [List.mem_append, hmem]
  | cutInPost outer st =>
    rw [runFullAux_cutpost_eval fuel (y :: ys') (by simp) B c tr outer st hr]
    simp [List.mem_append, hmem]

/-! ## Claim theorems -/

/-- **C4 (counterexample to the claim as stated).** Stages
`[A, B, C]`, each calling `next`, with `B`'s pre-`next` work 50 against
the budget 10: the per-stage timeout fires and is handled — status 503,
Context committed, exactly one `end` call — and yet the downstream
stage `C` *does* execute afterwards: `Promise.race` does not cancel the
losing branch, so when `B`'s pending await settles it resumes and its
`next()` runs `C` in full (both of `C`'s markers are recorded; only its
transport writes would be suppressed). The claim's "no downstream stage
executes afterward" conjunct is therefore false. -/
theorem C4_downstream_runs_after_timeout_counterexample :
    (executeMiddlewareM [⟨"A", 1, StageAct.callNext, 1⟩, ⟨"B", 50, StageAct.callNext, 1⟩,
        ⟨"C", 1, StageAct.callNext, 1⟩] 10 {}).ctx.response.status = 503 ∧
    (executeMiddlewareM [⟨"A", 1, StageAct.callNext, 1⟩, ⟨"B", 50, StageAct.callNext, 1⟩,
        ⟨"C", 1, StageAct.callNext, 1⟩] 10 {}).ctx.ended = true ∧
    countEnds (executeMiddlewareM [⟨"A", 1, StageAct.callNext, 1⟩,
        ⟨"B", 50, StageAct.callNext, 1⟩,
        ⟨"C", 1, StageAct.callNext, 1⟩] 10 {}).ctx.events = 1 ∧
    ("C" ++ "-pre") ∈ (executeMiddlewareM [⟨"A", 1, StageAct.callNext, 1⟩,
        ⟨"B", 50, StageAct.callNext, 1⟩,
        ⟨"C", 1, StageAct.callNext, 1⟩] 10 {}).trace ∧
    ("C" ++ "-post") ∈ (executeMiddlewareM [⟨"A", 1, StageAct.callNext, 1⟩,
        ⟨"B", 50, StageAct.callNext, 1⟩,
        ⟨"C", 1, StageAct.callNext, 1⟩] 10 {}).trace := by
  decide

/-- **C4 (amended).** When a stage's pre-`next` work exceeds the
per-stage budget behind a fitting chain of `next`-calling stages, the
pipeline sets the response status to 503, commits through the normal
`send` path (exactly one additional `end` call reaches the transport,
all later sends being suppressed by the `_ended` guard), marks the
Context committed, and treats the timeout as handled (no error
propagates out of `executeMiddleware`). Before the commit only the
upstream pre markers are recorded — but downstream stages are *not*
prevented from executing: the losing race branch is never cancelled, so
once the timed-out stage resumes and invokes `next`, the first
downstream stage records its marker. -/
theorem C4_stage_timeout_503_amended (xs : List Stage) (hang : Stage)
    (ys : List Stage) (B : Nat) (c : Ctx)
    (hnext : ∀ s ∈ xs, s.action = StageAct.callNext)
    (hfit : preSum xs ≤ B) (hB : B < hang.preWork)
    (hend : c.ended = false) (hab : c.aborted = false) :
    (executeMiddlewareM (xs ++ hang :: ys) B c).ctx.response.status = 503 ∧
    (executeMiddlewareM (xs ++ hang :: ys) B c).ctx.ended = true ∧
    (executeMiddlewareM (xs ++ hang :: ys) B c).err = none ∧
    countEnds (executeMiddlewareM (xs ++ hang :: ys) B c).ctx.events
      = countEnds c.events + 1 ∧
    (∃ t, (executeMiddlewareM (xs ++ hang :: ys) B c).trace
      = presOf xs ++ [hang.name ++ "-pre"] ++ t) ∧
    (hang.action = StageAct.callNext → ∀ y ys', ys = y :: ys' →
      (y.name ++ "-pre") ∈ (executeMiddlewareM (xs ++ hang :: ys) B c).trace) := by
  have hrem : B - preSum xs < hang.preWork :=
    lt_of_le_of_lt (Nat.sub_le B (preSum xs)) hB
  have hcut := runChain_cut_exact hang ys xs B [] hnext hfit hrem
  have hne : xs ++ hang :: ys ≠ [] := by simp
  have heval := runFullAux_cut_eval ((xs ++ hang :: ys).length) (xs ++ hang :: ys)
    hne B c (([] : List String) ++ presOf xs ++ [hang.name ++ "-pre"]) xs hang ys hcut
  have hcount := commit503_count c hend hab
  have hfuel : (xs ++ hang :: ys).length = xs.length + ys.length + 1 := by
    simp only [List.length_append, List.length_cons]
    omega
  simp only [executeMiddlewareM, heval]
  cases hact : hang.action with
  | callNext =>
    obtain ⟨hev, hE, hS⟩ := runFullAux_committed ((xs ++ hang :: ys).length) ys B
      (commit503 c) (commit503_ended c) (commit503_status c)
    rcases ho : runFullAux ((xs ++ hang :: ys).length) ys B (commit503 c)
      with ⟨octx, otr, oerr⟩
    rw [ho] at hev hE hS
    simp only at hev hE hS
    have hotr : (y : Stage) → (ys' : List Stage) → ys = y :: ys' →
        (y.name ++ "-pre") ∈ otr := by
      intro y ys' hys
      have hh := runFullAux_head_pre (xs.length + ys.length) y ys' B (commit503 c)
      rw [← hys] at hh
      rw [← hfuel] at hh
      rw [ho] at hh
      simpa using hh
    simp only [ho]
    cases oerr with
    | none =>
      refine ⟨by rw [hS], by rw [hE], rfl, ?_, ?_, ?_⟩
      · show countEnds octx.events = countEnds c.events + 1
        rw [hev]
        exact hcount
      · exact ⟨(xs.map fun s => s.name ++ "-post") ++ otr ++ [hang.name ++ "-post"],
          by simp [presOf]⟩
      · intro _ y ys' hys
        have hm := hotr y ys' hys
        simp [List.mem_append, hm]
    | some m =>
      refine ⟨by rw [hS], by rw [hE], rfl, ?_, ?_, ?_⟩
      · show countEnds octx.events = countEnds c.events + 1
        rw [hev]
        exact hcount
      · exact ⟨(xs.map fun s => s.name ++ "-post") ++ otr, by simp [presOf]⟩
      · intro _ y ys' hys
        have hm := hotr y ys' hys
        simp [List.mem_append, hm]
  | finish =>
    refine ⟨commit503_status c, commit503_ended c, rfl, hcount, ?_, ?_⟩
    · exact ⟨(xs.map fun s => s.name ++ "-post") ++ [hang.name ++ "-post"],
        by simp [presOf]⟩
    · intro habs
      simp at habs
  | throwErr m =>
    refine ⟨commit503_status c, commit503_ended c, rfl, hcount, ?_, ?_⟩
    · exact ⟨xs.map fun s => s.name ++ "-post", by simp [presOf]⟩
    · intro habs
      simp at habs

/-- Witness for the amended C4: stages `[A, B(hang), C]` against budget
10. -/
theorem C4_stage_timeout_503_amended_witness :
    (executeMiddlewareM ([⟨"A", 1, StageAct.callNext, 1⟩] ++
        ⟨"B", 50, StageAct.callNext, 1⟩ :: [⟨"C", 1, StageAct.callNext, 1⟩])
        10 {}).ctx.response.status = 503 ∧
    (executeMiddlewareM ([⟨"A", 1, StageAct.callNext, 1⟩] ++
        ⟨"B", 50, StageAct.callNext, 1⟩ :: [⟨"C", 1, StageAct.callNext, 1⟩])
        10 {}).ctx.ended = true ∧
    (executeMiddlewareM ([⟨"A", 1, StageAct.callNext, 1⟩] ++
        ⟨"B", 50, StageAct.callNext, 1⟩ :: [⟨"C", 1, StageAct.callNext, 1⟩])
        10 {}).err = none ∧
    countEnds (executeMiddlewareM ([⟨"A", 1, StageAct.callNext, 1⟩] ++
        ⟨"B", 50, StageAct.callNext, 1⟩ :: [⟨"C", 1, StageAct.callNext, 1⟩])
        10 {}).ctx.events = countEnds (Ctx.events {}) + 1 ∧
    (∃ t, (executeMiddlewareM ([⟨"A", 1, StageAct.callNext, 1⟩] ++
        ⟨"B", 50, StageAct.callNext, 1⟩ :: [⟨"C", 1, StageAct.callNext, 1⟩])
        10 {}).trace
      = presOf [⟨"A", 1, StageAct.callNext, 1⟩] ++ ["B" ++ "-pre"] ++ t) ∧
    ((⟨"B", 50, StageAct.callNext, 1⟩ : Stage).action = StageAct.callNext →
      ∀ y ys', [(⟨"C", 1, StageAct.callNext, 1⟩ : Stage)] = y :: ys' →
      (y.name ++ "-pre") ∈ (executeMiddlewareM ([⟨"A", 1, StageAct.callNext, 1⟩] ++
        ⟨"B", 50, StageAct.callNext, 1⟩ :: [⟨"C", 1, StageAct.callNext, 1⟩])
        10 {}).trace) :=
  C4_stage_timeout_503_amended [⟨"A", 1, StageAct.callNext, 1⟩]
    ⟨"B", 50, StageAct.callNext, 1⟩ [⟨"C", 1, StageAct.callNext, 1⟩] 10 {}
    (by decide) (by decide) (by decide) rfl rfl

/-- **C5.** Onion ordering: three registered stages that each record a
pre marker, await `next`, and record a post marker execute in the order
A-pre, B-pre, C-pre, C-post, B-post, A-post, provided the chain fits the
stage budget; nothing is committed and no error propagates. -/
theorem C5_onion_ordering (a b c : Stage) (B : Nat) (ctx : Ctx)
    (ha : a.action = StageAct.callNext) (hb : b.action = StageAct.callNext)
    (hc : c.action = StageAct.callNext)
    (hB : a.preWork + b.preWork + c.preWork + c.postWork + b.postWork + a.postWork ≤ B) :
    (executeMiddlewareM [a, b, c] B ctx).trace =
      [a.name ++ "-pre", b.name ++ "-pre", c.name ++ "-pre",
       c.name ++ "-post", b.name ++ "-post", a.name ++ "-post"] ∧
    (executeMiddlewareM [a, b, c] B ctx).ctx = ctx ∧
    (executeMiddlewareM [a, b, c] B ctx).err = none := by
  have hnext : ∀ s ∈ [a, b, c], s.action = StageAct.callNext := by
    intro s hs
    simp only [List.mem_cons, List.not_mem_nil, or_false] at hs
    rcases hs with rfl | rfl | rfl
    · exact ha
    · exact hb
    · exact hc
  have hW : totalWork [a, b, c] ≤ B := by
    simp only [totalWork]
    omega
  have h := runChain_done [a, b, c] hnext B [] hW
  have he := runFullAux_done_eval ([a, b, c].length) [a, b, c] (by simp) B ctx
    (([] : List String) ++ onionTrace [a, b, c]) (B - totalWork [a, b, c]) h
  simp only [executeMiddlewareM, he]
  simp [onionTrace]

/-- Witness for C5 at concrete stages A, B, C with unit works and
budget 100. -/
theorem C5_onion_ordering_witness :
    (executeMiddlewareM [⟨"A", 1, StageAct.callNext, 1⟩, ⟨"B", 1, StageAct.callNext, 1⟩,
        ⟨"C", 1, StageAct.callNext, 1⟩] 100 {}).trace =
      ["A" ++ "-pre", "B" ++ "-pre", "C" ++ "-pre",
       "C" ++ "-post", "B" ++ "-post", "A" ++ "-post"] ∧
    (executeMiddlewareM [⟨"A", 1, StageAct.callNext, 1⟩, ⟨"B", 1, StageAct.callNext, 1⟩,
        ⟨"C", 1, StageAct.callNext, 1⟩] 100 {}).ctx = {} ∧
    (executeMiddlewareM [⟨"A", 1, StageAct.callNext, 1⟩, ⟨"B", 1, StageAct.callNext, 1⟩,
        ⟨"C", 1, StageAct.callNext, 1⟩] 100 {}).err = none :=
  C5_onion_ordering ⟨"A", 1, StageAct.callNext, 1⟩ ⟨"B", 1, StageAct.callNext, 1⟩
    ⟨"C", 1, StageAct.callNext, 1⟩ 100 {} rfl rfl rfl (by decide)

/-- **C7.** A POST whose declared content type names JSON but whose body
is not valid JSON (the `JSON.parse` oracle returns `none`) ingests
normally: the inner promise resolves (no rejection reaches even the
outer catch, so no exception escapes), `_aborted` stays false, and the
body is the raw string of the received bytes. -/
theorem C7_malformed_json_raw_fallback (jsonParse : String → Option JsVal)
    (decodeComp : String → Option String) (maxB : Nat) (ctype s : String)
    (hct : strContains ctype "application/json" = true)
    (hjson : jsonParse s = none)
    (hsize : jsByteLen s ≤ maxB) :
    parseBodyInner jsonParse decodeComp maxB "POST" (some ctype) false [s] none
      = ⟨BodyVal.raw s, false, false⟩ ∧
    parseBodyGen jsonParse decodeComp maxB "POST" (some ctype) false [s] none
      = (BodyVal.raw s, false) := by
  have hinner : parseBodyInner jsonParse decodeComp maxB "POST" (some ctype)
      false [s] none = ⟨BodyVal.raw s, false, false⟩ := by
    have hne : ¬ maxB < 0 + jsByteLen s := by omega
    simp only [parseBodyInner, deliverChunks, hne, if_false]
    have hes : "" ++ s = s := by
      obtain ⟨l⟩ := s
      rfl
    simp only [hes, decodeBody, hct, if_true, hjson]
    rfl
  refine ⟨hinner, ?_⟩
  simp [parseBodyGen, hinner]

/-- Witness for C7: the spec's scenario body `{a:1}` with content type
`application/json` and a parse oracle that fails on it. -/
theorem C7_malformed_json_raw_fallback_witness :
    parseBodyInner (fun _ => none) some MAX_BODY_SIZE "POST"
        (some "application/json") false ["{a:1}"] none
      = ⟨BodyVal.raw "{a:1}", false, false⟩ ∧
    parseBodyGen (fun _ => none) some MAX_BODY_SIZE "POST"
        (some "application/json") false ["{a:1}"] none
      = (BodyVal.raw "{a:1}", false) :=
  C7_malformed_json_raw_fallback (fun _ => none) some MAX_BODY_SIZE
    "application/json" "{a:1}" (by decide) rfl (by decide)

/-- **C8.** With `NODE_ENV = 'production'` the default error handler
emits a body with no stack field, and two errors differing only in their
stack produce identical handler results; with any other environment the
stack is included. -/
theorem C8_production_hides_stack (c : Ctx) (e1 e2 : JsError)
    (hend : c.ended = false) (hab : c.aborted = false) :
    bodyStack (handleError "production" e1 c).response.body = none ∧
    (e1.status = e2.status → e1.message = e2.message → e1.code = e2.code →
      handleError "production" e1 c = handleError "production" e2 c) ∧
    (∀ env, env ≠ "production" →
      bodyStack (handleError env e1 c).response.body = some e1.stack) := by
  refine ⟨?_, ?_, ?_⟩
  · simp [handleError, hend, hab, send, ctxSet, bodyStack]
  · intro hst hmsg hcode
    simp only [handleError, hend, hab, hst, hmsg, hcode]
    simp
  · intro env henv
    simp [handleError, hend, hab, send, ctxSet, bodyStack, henv]

/-- Witness for C8: two errors with identical status/message/code but
different stacks, in production and in development. -/
theorem C8_production_hides_stack_witness :
    bodyStack (handleError "production" ⟨some 418, "boom", some "E_X", "stack-one"⟩
        {}).response.body = none ∧
    ((⟨some 418, "boom", some "E_X", "stack-one"⟩ : JsError).status
        = (⟨some 418, "boom", some "E_X", "stack-two"⟩ : JsError).status →
      (⟨some 418, "boom", some "E_X", "stack-one"⟩ : JsError).message
        = (⟨some 418, "boom", some "E_X", "stack-two"⟩ : JsError).message →
      (⟨some 418, "boom", some "E_X", "stack-one"⟩ : JsError).code
        = (⟨some 418, "boom", some "E_X", "stack-two"⟩ : JsError).code →
      handleError "production" ⟨some 418, "boom", some "E_X", "stack-one"⟩ {}
        = handleError "production" ⟨some 418, "boom", some "E_X", "stack-two"⟩ {}) ∧
    (∀ env, env ≠ "production" →
      bodyStack (handleError env ⟨some 418, "boom", some "E_X", "stack-one"⟩
        {}).response.body = some "stack-one") :=
  C8_production_hides_stack {} ⟨some 418, "boom", some "E_X", "stack-one"⟩
    ⟨some 418, "boom", some "E_X", "stack-two"⟩ rfl rfl

/-- **C9.** On a Context already committed or aborted, `sendFile` is an
idempotent no-op: it returns `false` immediately, issues no transport
call, performs no filesystem stat/open/close, and leaves the Context —
flags, response draft and event trace — unchanged. -/
theorem C9_sendFile_noop_when_committed (fs : FileSys) (sched : SFSched)
    (rootDir : String) (c : Ctx) (p : String)
    (h : c.ended = true ∨ c.aborted = true) :
    sendFile fs sched rootDir c p = ⟨c, false, 0, 0, 0⟩ := by
  have hor : (c.ended || c.aborted) = true := by
    rcases h with h | h <;> simp [h]
  simp [sendFile, hor]

/-- Witness for C9 on an ended Context (and a filesystem that would
otherwise serve the file). -/
theorem C9_sendFile_noop_when_committed_witness :
    ((Ctx.ended { ended := true } = true ∨ Ctx.aborted { ended := true } = true) ∧
      sendFile ⟨fun _ => some (true, 5), fun _ => "hello", false⟩ {} "/srv"
        { ended := true } "a.txt"
        = ⟨{ ended := true }, false, 0, 0, 0⟩) :=
  ⟨Or.inl rfl,
    C9_sendFile_noop_when_committed ⟨fun _ => some (true, 5), fun _ => "hello", false⟩
      {} "/srv" { ended := true } "a.txt" (Or.inl rfl)⟩

/-- Filesystem fixture: one small (5-byte) regular file `/srv/a.txt`. -/
def fsSmall : FileSys :=
  ⟨fun p => if p == "/srv/a.txt" then some (true, 5) else none, fun _ => "hello", false⟩

/-- Filesystem fixture: one large (2 MiB) regular file `/srv/big.bin`. -/
def fsBig : FileSys :=
  ⟨fun p => if p == "/srv/big.bin" then some (true, 2 * 1024 * 1024) else none,
    fun _ => "", false⟩

/-- **C1.** The at-most-once-commit invariant fails on the buffered
`sendFile` path: entered on a fresh context, with the request-timeout
callback firing while the `fs.promises.readFile` await is pending, the
timeout handler commits a 408 `end` and sets `_aborted`, and the resumed
small-file commit — which re-checks neither `_ended` nor `_aborted`
(source lines 1282–1292) — issues a second `end`: two `end` calls reach
the transport after `_aborted` was set. -/
theorem C1_double_end_small_file_timeout :
    countEnds (sendFile fsSmall { timeoutDuringRead := true } "/srv" {} "a.txt").ctx.events = 2 ∧
    (sendFile fsSmall { timeoutDuringRead := true } "/srv" {} "a.txt").ctx.aborted = true ∧
    countEnds (sendFile fsSmall {} "/srv" {} "a.txt").ctx.events = 1 := by
  decide

/-- **C2.** The containment check of `serveStatic` is a bare string
prefix test (source line 1448): with app root `/srv` and static root
`public`, the request URL `/static/../public_secret/x.txt` resolves to
`/srv/public_secret/x.txt`, which escapes the root `/srv/public`, yet
the middleware does not answer 403 — it invokes `sendFile` on the
escaped path, and `sendFile` then performs a filesystem stat. -/
theorem C2_containment_prefix_bypass :
    serveStaticInit "static" "public" = some ⟨"/static/", "public/"⟩ ∧
    (serveStaticStep "/srv" ⟨"/static/", "public/"⟩ "GET"
        "/static/../public_secret/x.txt" {}).2
      = StaticDecision.serve "/srv/public_secret/x.txt" ∧
    underRoot "/srv/public_secret/x.txt" "/srv/public" = false ∧
    ((serveStaticStep "/srv" ⟨"/static/", "public/"⟩ "GET"
        "/static/../public_secret/x.txt" {}).1.response.status ≠ 403) ∧
    (sendFile ⟨fun _ => none, fun _ => "", false⟩ {} "/srv" {}
        "/srv/public_secret/x.txt").statCalls = 1 := by
  decide

/-- **C3.** A body one byte above the ceiling is rejected
deterministically and the middleware never runs — but no client-error
response is committed either: `parseBody` sets `_aborted` and swallows
the rejection, and `handleRequest` then skips both the middleware chain
and every send, leaving the transport trace empty (no `end` call at
all); shown here with the ceiling generalized to 4 and a 5-byte chunk. -/
theorem C3_body_too_large_no_response :
    (handleRequestModel "production" [⟨"A", 0, StageAct.finish, 0⟩] 100
        (fun _ => none) some 4 "POST" none ["hello"] none {}).middlewareRan = false ∧
    (handleRequestModel "production" [⟨"A", 0, StageAct.finish, 0⟩] 100
        (fun _ => none) some 4 "POST" none ["hello"] none {}).ctx.events = [] ∧
    (handleRequestModel "production" [⟨"A", 0, StageAct.finish, 0⟩] 100
        (fun _ => none) some 4 "POST" none ["hello"] none {}).ctx.aborted = true ∧
    (handleRequestModel "production" [⟨"A", 0, StageAct.finish, 0⟩] 100
        (fun _ => none) some 4 "POST" none ["hell"] none {}).middlewareRan = true := by
  decide

/-- **C6.** In the large-file path the descriptor is not closed exactly
once on every exit: when the client abort event is delivered while the
final `fsClose` promise is pending, the `onAborted` handler still sees
`fd !== null` (the code nulls `fd` only after the await, source lines
1300–1306 and 1332–1336) and closes the descriptor a second time; a
run without that abort closes it exactly once. -/
theorem C6_fd_double_close_on_abort_during_close :
    (sendFile fsBig { abortDuringClose := true } "/srv" {} "big.bin").openCalls = 1 ∧
    (sendFile fsBig { abortDuringClose := true } "/srv" {} "big.bin").closeCalls = 2 ∧
    (sendFile fsBig {} "/srv" {} "big.bin").closeCalls = 1 ∧
    (sendFile fsBig {} "/srv" {} "big.bin").result = true := by
  decide

/-- **C10 (counterexample).** For the request `/users/42?x=1` matched
against `/users/:id`, the stored parameter is `"42"`, not `"42?x=1"`:
the transport delivers the query string separately from the path, so
`parseParams` never sees the `?`. -/
theorem C10_param_with_query_counterexample :
    routeParams ⟨"/users/42", "x=1"⟩ "/users/:id" = some [("id", "42")] ∧
    routeParams ⟨"/users/42", "x=1"⟩ "/users/:id" ≠ some [("id", "42?x=1")] := by
  decide

/-- **C10 (amended).** `parseParams` splits the context URL without any
query stripping of its own and `matchPattern` strips defensively, but
the URL stored by `createContext` is the transport's `get-path` value,
which excludes the query string: for `/users/42` with any query string
the stored parameter is the bare segment `"42"`. -/
theorem C10_param_is_bare_segment (q : String) :
    routeParams ⟨"/users/42", q⟩ "/users/:id" = some [("id", "42")] := by
  rfl

end UWebKoa
